import Mathlib

/-!
Verification of the ebook authoring core against its natural-language
specification: the chapter/settings store with its pagination estimator
(src/project/src/store/useEbookStore.ts) and the PDF table-of-contents
extractor (processTableOfContents in the unnamed source file).
All definitions below are shallow embeddings of the TypeScript source;
JavaScript floating-point numbers are modelled as rationals, machine
strings as Lean strings, and the nondeterministic crypto.randomUUID()
as an explicit identifier argument.
-/

/-- JS `a || b` for an optional string field: `undefined` and the empty
string are falsy. -/
def jsOrStr (o : Option String) (d : String) : String :=
  match o with
  | some s => if s = "" then d else s
  | none => d

/-- JS `a || b` for an optional numeric field: `undefined` and `0` are falsy. -/
def jsOrQ (o : Option ℚ) (d : ℚ) : ℚ :=
  match o with
  | some q => if q = 0 then d else q
  | none => d

/-- JS truthiness of a nullable string (`null` and `""` are falsy). -/
def jsTruthyStr (o : Option String) : Bool :=
  match o with
  | some s => !(s == "")
  | none => false

/-! ## Table-of-contents extractor (processTableOfContents) -/

/-- Entry categories of the extractor output. -/
inductive TocType
  | frontmatter
  | chapter
  | subchapter
deriving DecidableEq

/-- A TOC page label as produced by the extractor: a string (roman numeral
or its decimal fallback) for front matter, a number for the others. -/
inductive PageLabel
  | roman (s : String)
  | page (n : Nat)
deriving DecidableEq

/-- One row of the extracted table of contents. -/
structure TocEntry where
  type : TocType
  title : String
  content : String
  pageNumber : PageLabel
deriving DecidableEq

/-- Test whether `s` begins, case-insensitively, with the (lowercase)
pattern `pat`. -/
def startsWithLower : List Char → List Char → Bool
  | [], _ => true
  | _ :: _, [] => false
  | p :: pr, c :: cr => (p == Char.toLower c) && startsWithLower pr cr

/-- Case-insensitive substring test, JS `/pat/i.test(s)` for a literal
pattern `pat` given in lowercase. -/
def containsLowerPat (pat : List Char) : List Char → Bool
  | [] => pat.isEmpty
  | c :: t => startsWithLower pat (c :: t) || containsLowerPat pat t

def splitLinesAux (cur : List Char) : List Char → List (List Char)
  | [] => [cur.reverse]
  | c :: t => if c = '\n' then cur.reverse :: splitLinesAux [] t else splitLinesAux (c :: cur) t

/-- JS `text.split('\n')` (empty pieces are kept). -/
def splitLines (s : List Char) : List (List Char) := splitLinesAux [] s

/-- Whitespace characters relevant to JS `trim` for the text that occurs here. -/
def jsIsSpace (c : Char) : Bool := c == ' ' || c == '\t' || c == '\n' || c == '\r'

/-- JS `String.prototype.trim`. -/
def trimChars (s : List Char) : List Char :=
  ((s.dropWhile jsIsSpace).reverse.dropWhile jsIsSpace).reverse

/-- JS `Array.prototype.indexOf`: index of the first occurrence (the source
only applies it to an element of the array, so the not-found case is
unreachable there). -/
def indexOfLine (x : List Char) : List (List Char) → Nat
  | [] => 0
  | y :: t => if y = x then 0 else indexOfLine x t + 1

/-- Leftmost match of the front-matter marker `/(Kata Pengantar|Daftar Isi)/gi`;
the matched text keeps the original casing, as `String.match` does. -/
def specialFirstMatch : List Char → Option (List Char)
  | [] => none
  | c :: t =>
    if startsWithLower ("kata pengantar".data) (c :: t) then some ((c :: t).take 14)
    else if startsWithLower ("daftar isi".data) (c :: t) then some ((c :: t).take 10)
    else specialFirstMatch t

/-- Whether the pattern `/Bab \d+[:\s]?.*/i` matches starting at this
position; the trailing `.*` then extends the match to the end of the line. -/
def babAt (s : List Char) : Bool :=
  startsWithLower ("bab ".data) s &&
    (match s.drop 4 with
     | d :: _ => d.isDigit
     | [] => false)

/-- Leftmost match of the chapter marker `/Bab \d+[:\s]?.*/gi`; the match
runs to the end of the line. -/
def babFirstMatch : List Char → Option (List Char)
  | [] => none
  | c :: t => if babAt (c :: t) then some (c :: t) else babFirstMatch t

/-- After one or more digits have been read, the rest of `/\d+\.\d+/` with
backtracking: some further digits, then a dot, then a digit. -/
def subTail : List Char → Bool
  | [] => false
  | c :: rest =>
    (c == '.' && (match rest with | d :: _ => d.isDigit | [] => false)) ||
    (c.isDigit && subTail rest)

/-- Whether `/\d+\.\d+[:\s]?.*/` matches starting at this position. -/
def subbabAt : List Char → Bool
  | [] => false
  | c :: rest => c.isDigit && subTail rest

/-- Leftmost match of the subchapter marker `/\d+\.\d+[:\s]?.*/gi`; the
match runs to the end of the line. -/
def subbabFirstMatch : List Char → Option (List Char)
  | [] => none
  | c :: t => if subbabAt (c :: t) then some (c :: t) else subbabFirstMatch t

/-- The fixed roman-numeral lookup table of the extractor. -/
def romanNumerals : List String :=
  ["i", "ii", "iii", "iv", "v", "vi", "vii", "viii", "ix", "x"]

/-- The mutable locals of processTableOfContents. -/
structure TocState where
  toc : List TocEntry
  seen : List String
  pageCounter : Nat
  isMainContentStarted : Bool
  romanIndex : Nat
deriving DecidableEq

/-- The front-matter branch of the per-line scan (lines 49 to 63 of the
extractor source). -/
def specialStep (st : TocState) (line : List Char) : TocState :=
  match specialFirstMatch line with
  | some m =>
    let specialHeading := String.mk (trimChars m)
    if st.seen.contains specialHeading then st
    else
      let romanPage := jsOrStr (romanNumerals.get? st.romanIndex) (toString (st.romanIndex + 1))
      { st with
          toc := st.toc ++
            [⟨TocType.frontmatter, specialHeading,
              specialHeading ++ " - Halaman " ++ romanPage, PageLabel.roman romanPage⟩],
          seen := specialHeading :: st.seen,
          romanIndex := st.romanIndex + 1 }
  | none => st

/-- The chapter branch of the per-line scan (lines 65 to 81): note the
emitted label uses the current total length of the accumulated list, and
the title is the line after the first occurrence of the matched line. -/
def babStep (lines : List (List Char)) (st : TocState) (line : List Char) : TocState :=
  match babFirstMatch line with
  | some m =>
    let babHeading := String.mk (trimChars m)
    if st.seen.contains babHeading then st
    else
      let babTitle :=
        match lines.get? (indexOfLine line lines + 1) with
        | some nl => if nl.isEmpty then "" else String.mk (trimChars nl)
        | none => ""
      if st.isMainContentStarted then
        { st with
            toc := st.toc ++
              [⟨TocType.chapter, babTitle,
                "BAB " ++ toString (st.toc.length + 1) ++ " : " ++ babTitle,
                PageLabel.page st.pageCounter⟩],
            seen := babHeading :: st.seen }
      else st
  | none => st

/-- The subchapter branch of the per-line scan (lines 83 to 95). -/
def subbabStep (st : TocState) (line : List Char) : TocState :=
  match subbabFirstMatch line with
  | some m =>
    let subbabHeading := String.mk (trimChars m)
    if !(st.seen.contains subbabHeading) && st.isMainContentStarted then
      { st with
          toc := st.toc ++
            [⟨TocType.subchapter, subbabHeading,
              subbabHeading ++ " - Halaman " ++ toString st.pageCounter,
              PageLabel.page st.pageCounter⟩],
          seen := subbabHeading :: st.seen }
    else st
  | none => st

/-- One line of the per-page scan: the three pattern branches run in
source order on the same line. -/
def processLine (lines : List (List Char)) (st : TocState) (line : List Char) : TocState :=
  subbabStep (babStep lines (specialStep st line) line) line

/-- The main-content flag check at the top of the page loop (lines 42 to
45): the first page containing "Bab 1" flips the flag and seeds the page
counter at 1. -/
def flagStep (st : TocState) (text : String) : TocState :=
  if !st.isMainContentStarted && containsLowerPat ("bab 1".data) text.data then
    { st with isMainContentStarted := true, pageCounter := 1 }
  else st

/-- The page-counter advance at the bottom of the page loop (lines 98 to
100). -/
def bumpStep (st : TocState) : TocState :=
  if st.isMainContentStarted then { st with pageCounter := st.pageCounter + 1 } else st

/-- One page of the scan: flip the main-content flag on the first page
containing "Bab 1", scan every line, then advance the page counter if the
flag is set. -/
def processPage (st : TocState) (text : String) : TocState :=
  bumpStep
    ((splitLines text.data).foldl (processLine (splitLines text.data)) (flagStep st text))

/-- The initial extractor state. -/
def tocInit : TocState := ⟨[], [], 0, false, 0⟩

/-- The extractor: processTableOfContents of the unnamed source file. -/
def processTableOfContents (pagesText : List String) : List TocEntry :=
  (pagesText.foldl processPage tocInit).toc

/-!
Instrumented extractor for the deduplication claim: identical to the one
above, except that each emitted entry is paired with the heading text
under which it was recorded in seenHeadings (its deduplication key, which
for chapter entries is not recoverable from the entry itself).  The
projection onto first components is proved equal to the plain extractor.
-/

/-- Extractor state carrying each emitted entry together with its
deduplication key. -/
structure KTocState where
  tocK : List (TocEntry × String)
  seen : List String
  pageCounter : Nat
  isMainContentStarted : Bool
  romanIndex : Nat

/-- Key-instrumented variant of specialStep. -/
def specialStepK (st : KTocState) (line : List Char) : KTocState :=
  match specialFirstMatch line with
  | some m =>
    let specialHeading := String.mk (trimChars m)
    if st.seen.contains specialHeading then st
    else
      let romanPage := jsOrStr (romanNumerals.get? st.romanIndex) (toString (st.romanIndex + 1))
      { st with
          tocK := st.tocK ++
            [(⟨TocType.frontmatter, specialHeading,
               specialHeading ++ " - Halaman " ++ romanPage, PageLabel.roman romanPage⟩,
              specialHeading)],
          seen := specialHeading :: st.seen,
          romanIndex := st.romanIndex + 1 }
  | none => st

/-- Key-instrumented variant of babStep. -/
def babStepK (lines : List (List Char)) (st : KTocState) (line : List Char) : KTocState :=
  match babFirstMatch line with
  | some m =>
    let babHeading := String.mk (trimChars m)
    if st.seen.contains babHeading then st
    else
      let babTitle :=
        match lines.get? (indexOfLine line lines + 1) with
        | some nl => if nl.isEmpty then "" else String.mk (trimChars nl)
        | none => ""
      if st.isMainContentStarted then
        { st with
            tocK := st.tocK ++
              [(⟨TocType.chapter, babTitle,
                 "BAB " ++ toString (st.tocK.length + 1) ++ " : " ++ babTitle,
                 PageLabel.page st.pageCounter⟩,
                babHeading)],
            seen := babHeading :: st.seen }
      else st
  | none => st

/-- Key-instrumented variant of subbabStep. -/
def subbabStepK (st : KTocState) (line : List Char) : KTocState :=
  match subbabFirstMatch line with
  | some m =>
    let subbabHeading := String.mk (trimChars m)
    if !(st.seen.contains subbabHeading) && st.isMainContentStarted then
      { st with
          tocK := st.tocK ++
            [(⟨TocType.subchapter, subbabHeading,
               subbabHeading ++ " - Halaman " ++ toString st.pageCounter,
               PageLabel.page st.pageCounter⟩,
              subbabHeading)],
          seen := subbabHeading :: st.seen }
    else st
  | none => st

/-- Key-instrumented variant of processLine. -/
def processLineK (lines : List (List Char)) (st : KTocState) (line : List Char) : KTocState :=
  subbabStepK (babStepK lines (specialStepK st line) line) line

/-- Key-instrumented variant of flagStep. -/
def flagStepK (st : KTocState) (text : String) : KTocState :=
  if !st.isMainContentStarted && containsLowerPat ("bab 1".data) text.data then
    { st with isMainContentStarted := true, pageCounter := 1 }
  else st

/-- Key-instrumented variant of bumpStep. -/
def bumpStepK (st : KTocState) : KTocState :=
  if st.isMainContentStarted then { st with pageCounter := st.pageCounter + 1 } else st

/-- Key-instrumented variant of processPage. -/
def processPageK (st : KTocState) (text : String) : KTocState :=
  bumpStepK
    ((splitLines text.data).foldl (processLineK (splitLines text.data)) (flagStepK st text))

/-- The initial instrumented state. -/
def tocInitK : KTocState := ⟨[], [], 0, false, 0⟩

/-- Key-instrumented extractor. -/
def processTableOfContentsK (pagesText : List String) : List (TocEntry × String) :=
  (pagesText.foldl processPageK tocInitK).tocK

/-- Forget the instrumentation keys. -/
def eraseK (st : KTocState) : TocState :=
  ⟨st.tocK.map Prod.fst, st.seen, st.pageCounter, st.isMainContentStarted, st.romanIndex⟩

/-! ## Chapter / settings store (useEbookStore.ts) -/

/-- An image reference: only its width (percent of the page width) is read
by the pagination estimator.  Modelled from the spec: the Image type of
the missing types module. -/
structure Image where
  width : ℚ
deriving DecidableEq

/-- The four chapter segments. -/
inductive ChapterType
  | frontmatter
  | toc
  | chapter
  | backmatter
deriving DecidableEq

/-- A subchapter.  Modelled from the spec: the SubChapter type of the
missing types module (identifier, title, content, derived page number;
the page number is absent until first assigned). -/
structure SubChapter where
  id : String
  title : String
  content : String
  pageNumber : Option ℤ := none
deriving DecidableEq

/-- A chapter.  Modelled from the spec: the Chapter type of the missing
types module.  The derived pageNumber is absent until first assigned. -/
structure Chapter where
  id : String
  title : String
  content : String
  images : List Image
  type : ChapterType
  indentation : ℚ
  lineSpacing : ℚ
  pageNumber : Option ℤ := none
  subChapters : List SubChapter
deriving DecidableEq

/-- Paper sizes. -/
inductive PaperSize
  | a4
  | letter
deriving DecidableEq

/-- Page margins in centimetres. -/
structure Margins where
  top : ℚ
  bottom : ℚ
  left : ℚ
  right : ℚ
deriving DecidableEq

/-- One font role.  Modelled from the spec. -/
structure FontSpec where
  family : String
  size : ℚ
  alignment : String
  lineHeight : ℚ
deriving DecidableEq

/-- Font roles: only the paragraph role is read by the operations under
verification; the other roles carry no information the claims mention and
are omitted. -/
structure Fonts where
  paragraph : FontSpec
deriving DecidableEq

/-- Ebook settings.  Modelled from the spec: the EbookSettings type of the
missing types module, restricted to the fields the verified operations
read or that identify the object (page numbering and header/footer
configuration are never read by them and are omitted). -/
structure EbookSettings where
  title : String
  author : String
  description : String
  coverImage : Option String
  backCoverImage : Option String
  paperSize : PaperSize
  margins : Margins
  fonts : Fonts
deriving DecidableEq

/-- The whole store state. -/
structure EbookStore where
  chapters : List Chapter
  settings : EbookSettings
deriving DecidableEq

/-- A Partial Chapter argument: absent fields are none.  The source merges
it with JS object spread. -/
structure PartialChapter where
  id : Option String := none
  title : Option String := none
  content : Option String := none
  images : Option (List Image) := none
  type : Option ChapterType := none
  indentation : Option ℚ := none
  lineSpacing : Option ℚ := none
  pageNumber : Option (Option ℤ) := none
  subChapters : Option (List SubChapter) := none
deriving DecidableEq

/-- JS object spread of a Partial Chapter over a chapter. -/
def mergeChapter (ch : Chapter) (p : PartialChapter) : Chapter :=
  { id := p.id.getD ch.id
    title := p.title.getD ch.title
    content := p.content.getD ch.content
    images := p.images.getD ch.images
    type := p.type.getD ch.type
    indentation := p.indentation.getD ch.indentation
    lineSpacing := p.lineSpacing.getD ch.lineSpacing
    pageNumber := p.pageNumber.getD ch.pageNumber
    subChapters := p.subChapters.getD ch.subChapters }

/-- The renumbering block repeated verbatim at the end of addChapter,
updateChapter and removeChapter: walk the list with a counter starting at
`n`, assigning the counter to every entry of type chapter. -/
def renumberFrom (n : ℤ) : List Chapter → List Chapter
  | [] => []
  | ch :: rest =>
    if ch.type = ChapterType.chapter then
      { ch with pageNumber := some n } :: renumberFrom (n + 1) rest
    else
      ch :: renumberFrom n rest

/-- Renumbering with the counter seeded at 1, as in the source. -/
def renumberChapters (l : List Chapter) : List Chapter := renumberFrom 1 l

/-- The new-chapter record built at the top of addChapter (lines 110 to
119): defaulting with JS `||`, a fresh identifier passed explicitly, and
no pageNumber assigned. -/
def buildNewChapter (uuid : String) (p : PartialChapter) : Chapter :=
  { id := uuid
    title := jsOrStr p.title "New Chapter"
    content := jsOrStr p.content ""
    images := p.images.getD []
    type := p.type.getD ChapterType.chapter
    indentation := jsOrQ p.indentation 0
    lineSpacing := jsOrQ p.lineSpacing 1.5
    pageNumber := none
    subChapters := p.subChapters.getD [] }

/-- Whether an entry belongs to the front-matter/toc prefix skipped by the
insertion scans of addChapter. -/
def isPreType (ch : Chapter) : Bool :=
  ch.type == ChapterType.frontmatter || ch.type == ChapterType.toc

/-- The insertion index computed by the two while loops of addChapter. -/
def addChapterInsertIndex (ty : ChapterType) (l : List Chapter) : Nat :=
  if ty = ChapterType.frontmatter ∨ ty = ChapterType.toc then
    (l.takeWhile isPreType).length
  else if ty = ChapterType.chapter then
    let i := (l.takeWhile isPreType).length
    i + ((l.drop i).takeWhile (fun ch => ch.type == ChapterType.chapter)).length
  else
    l.length

/-- The addChapter operation on the chapter list (the fresh identifier is
an explicit argument standing for crypto.randomUUID()). -/
def addChapter (uuid : String) (p : PartialChapter) (l : List Chapter) : List Chapter :=
  let newChapter := buildNewChapter uuid p
  let insertIndex := addChapterInsertIndex newChapter.type l
  renumberChapters (l.take insertIndex ++ newChapter :: l.drop insertIndex)

/-- The updateChapter operation on the chapter list. -/
def updateChapter (id : String) (p : PartialChapter) (l : List Chapter) : List Chapter :=
  renumberChapters (l.map (fun ch => if ch.id == id then mergeChapter ch p else ch))

/-- The removeChapter operation on the chapter list. -/
def removeChapter (id : String) (l : List Chapter) : List Chapter :=
  renumberChapters (l.filter (fun ch => !(ch.id == id)))

/-- The two running page counters of calculatePageNumbers. -/
structure Counters where
  roman : ℤ
  arabic : ℤ
deriving DecidableEq

/-- Counter initialisation of calculatePageNumbers (lines 221, 222, 233 to
239): both counters are seeded at 1, the arabic counter is incremented
once if a cover image is present and once more for the title page. -/
def initCounters (settings : EbookSettings) : Counters :=
  let romanPageCount : ℤ := 1
  let arabicPageCount : ℤ := 1
  let arabicPageCount :=
    if jsTruthyStr settings.coverImage then arabicPageCount + 1 else arabicPageCount
  let arabicPageCount := arabicPageCount + 1
  { roman := romanPageCount, arabic := arabicPageCount }

/-- Millimetres per point, the literal 0.352778 of the source. -/
def mmPerPoint : ℚ := 0.352778

/-- Estimated characters per page from the settings (lines 224 to 231).
The floating-point divisions of the source are modelled exactly on the
rationals. -/
def charsPerPage (settings : EbookSettings) : ℤ :=
  let pageWidth : ℚ := if settings.paperSize = PaperSize.a4 then 210 else 216
  let pageHeight : ℚ := if settings.paperSize = PaperSize.a4 then 297 else 279
  let contentWidth := pageWidth - (settings.margins.left + settings.margins.right) * 10
  let contentHeight := pageHeight - (settings.margins.top + settings.margins.bottom) * 10
  let charsPerLine := ⌊contentWidth / (settings.fonts.paragraph.size * mmPerPoint)⌋
  let linesPerPage :=
    ⌊contentHeight / (settings.fonts.paragraph.size * settings.fonts.paragraph.lineHeight * mmPerPoint)⌋
  charsPerLine * linesPerPage

/-- Image page cost (lines 257 to 264): a reduce adding 1 for images wider
than half the page and one half otherwise. -/
def imagePagesOf (images : List Image) : ℚ :=
  images.foldl (fun total image => if 50 < image.width then total + 1 else total + 0.5) 0

/-- The stateful map over a chapter's subchapters (lines 279 to 294). -/
def calcSubs (cpp : ℤ) (isPre : Bool) (cnt : Counters) :
    List SubChapter → Counters × List SubChapter
  | [] => (cnt, [])
  | sub :: rest =>
    let subPages := max 1 ⌈(sub.content.length : ℚ) / (cpp : ℚ)⌉
    let subPageNumber := if isPre then cnt.roman else cnt.arabic
    let cnt1 :=
      if isPre then { cnt with roman := cnt.roman + subPages }
      else { cnt with arabic := cnt.arabic + subPages }
    let r := calcSubs cpp isPre cnt1 rest
    (r.1, { sub with pageNumber := some subPageNumber } :: r.2)

/-- The body of the chapters.map of calculatePageNumbers (lines 241 to
301), threading the two counters. -/
def calcStep (cpp : ℤ) (cnt : Counters) (ch : Chapter) : Counters × Chapter :=
  let isPre := isPreType ch
  let pageCount := if isPre then cnt.roman else cnt.arabic
  let cnt1 :=
    if isPre then { cnt with roman := cnt.roman + 1 }
    else { cnt with arabic := cnt.arabic + 1 }
  let contentPages := ⌈(ch.content.length : ℚ) / (cpp : ℚ)⌉
  let totalImagePages := ⌈imagePagesOf ch.images⌉
  let totalPages := max 1 (contentPages + totalImagePages)
  let cnt2 :=
    if isPre then { cnt1 with roman := cnt1.roman + totalPages }
    else { cnt1 with arabic := cnt1.arabic + totalPages }
  let r := calcSubs cpp isPre cnt2 ch.subChapters
  (r.1, { ch with pageNumber := some pageCount, subChapters := r.2 })

/-- The chapters.map of calculatePageNumbers as a counter-threading walk. -/
def calcList (cpp : ℤ) (cnt : Counters) : List Chapter → List Chapter
  | [] => []
  | ch :: rest =>
    let r := calcStep cpp cnt ch
    r.2 :: calcList cpp r.1 rest

/-- The counters after walking a list, used to reason about appends. -/
def calcCnt (cpp : ℤ) (cnt : Counters) : List Chapter → Counters
  | [] => cnt
  | ch :: rest => calcCnt cpp (calcStep cpp cnt ch).1 rest

/-- The calculatePageNumbers recomputation on a chapter list. -/
def calculatePageNumbers (settings : EbookSettings) (l : List Chapter) : List Chapter :=
  calcList (charsPerPage settings) (initCounters settings) l

/-- The calculatePageNumbers action on the whole store. -/
def calcStore (st : EbookStore) : EbookStore :=
  { st with chapters := calculatePageNumbers st.settings st.chapters }

/-- The per-chapter numbering map of reorderChapters (applied to the
already filtered main chapters, hence unconditional). -/
def numberFrom (n : ℤ) : List Chapter → List Chapter
  | [] => []
  | ch :: rest => { ch with pageNumber := some n } :: numberFrom (n + 1) rest

/-- The reorderChapters operation: partition the supplied list by type,
renumber the main chapters, concatenate the four segments in canonical
order, store, and recompute pagination. -/
def reorderChapters (input : List Chapter) (st : EbookStore) : EbookStore :=
  let frontmatterChapters := input.filter (fun ch => ch.type == ChapterType.frontmatter)
  let tocChapters := input.filter (fun ch => ch.type == ChapterType.toc)
  let mainChapters := input.filter (fun ch => ch.type == ChapterType.chapter)
  let backmatterChapters := input.filter (fun ch => ch.type == ChapterType.backmatter)
  let numberedMainChapters := numberFrom 1 mainChapters
  let orderedChapters :=
    frontmatterChapters ++ tocChapters ++ numberedMainChapters ++ backmatterChapters
  calcStore { st with chapters := orderedChapters }

/-- The addSubChapter operation (fresh identifier passed explicitly),
followed by the pagination recompute the source triggers. -/
def addSubChapter (chapterId : String) (uuid : String) (title : String)
    (st : EbookStore) : EbookStore :=
  calcStore
    { st with
        chapters := st.chapters.map (fun ch =>
          if ch.id == chapterId then
            { ch with subChapters := ch.subChapters ++ [⟨uuid, title, "", none⟩] }
          else ch) }

/-- The removeSubChapter operation, followed by the pagination recompute
the source triggers. -/
def removeSubChapter (chapterId : String) (subChapterId : String)
    (st : EbookStore) : EbookStore :=
  calcStore
    { st with
        chapters := st.chapters.map (fun ch =>
          if ch.id == chapterId then
            { ch with subChapters := ch.subChapters.filter (fun sub => !(sub.id == subChapterId)) }
          else ch) }

/-! ## Observation functions used by the claims -/

/-- Everything of a subchapter except its derived page number. -/
structure SubCore where
  id : String
  title : String
  content : String
deriving DecidableEq

/-- Forget a subchapter's page number. -/
def subCore (s : SubChapter) : SubCore := ⟨s.id, s.title, s.content⟩

/-- Everything of a chapter except the derived page numbers (its own and
its subchapters'). -/
structure ChapterCore where
  id : String
  title : String
  content : String
  images : List Image
  type : ChapterType
  indentation : ℚ
  lineSpacing : ℚ
  subs : List SubCore
deriving DecidableEq

/-- Forget a chapter's derived page numbers. -/
def chCore (ch : Chapter) : ChapterCore :=
  ⟨ch.id, ch.title, ch.content, ch.images, ch.type, ch.indentation, ch.lineSpacing,
   ch.subChapters.map subCore⟩

/-- The chapter-number sequence: page numbers of the chapter-typed entries
in list order. -/
def chapterNums (l : List Chapter) : List (Option ℤ) :=
  (l.filter (fun ch => ch.type == ChapterType.chapter)).map Chapter.pageNumber

/-- The contiguous-numbering invariant: chapter-typed entries carry 1..K
in list order. -/
def isNumbered (l : List Chapter) : Prop :=
  chapterNums l =
    (List.range (l.filter (fun ch => ch.type == ChapterType.chapter)).length).map
      (fun i : ℕ => some ((i : ℤ) + 1))

/-- The page label the extractor assigns to the front-matter entry with
front-matter index `i`. -/
def romanLabel (i : Nat) : String :=
  jsOrStr (romanNumerals.get? i) (toString (i + 1))

/-! ## Concrete instances used by counterexamples and witnesses -/

/-- A concrete settings object (small integral values so that kernel
evaluation stays cheap). -/
def exSettings : EbookSettings :=
  { title := "", author := "", description := "", coverImage := none,
    backCoverImage := none, paperSize := PaperSize.a4,
    margins := ⟨1, 1, 1, 1⟩,
    fonts := ⟨⟨"Helvetica", 12, "justify", 1⟩⟩ }

/-- The same settings with a cover image present. -/
def exSettingsCover : EbookSettings :=
  { exSettings with coverImage := some "cover.png" }

/-- A chapter-typed entry whose stored page number is not its canonical
chapter index. -/
def chA : Chapter :=
  { id := "a", title := "T", content := "", images := [],
    type := ChapterType.chapter, indentation := 0, lineSpacing := 1,
    pageNumber := some 5, subChapters := [] }

/-- A concrete store used by the witnesses. -/
def stW : EbookStore :=
  { chapters := [{ id := "a", title := "T", content := "", images := [],
                   type := ChapterType.chapter, indentation := 0, lineSpacing := 1,
                   pageNumber := some 5, subChapters := [⟨"s1", "S", "", none⟩] }],
    settings := exSettings }

/-- A chapter of frontmatter type, for observing the roman counter. -/
def chFm : Chapter :=
  { id := "f", title := "F", content := "", images := [],
    type := ChapterType.frontmatter, indentation := 0, lineSpacing := 1,
    pageNumber := none, subChapters := [] }

/-- The input page list of the worked example in the spec. -/
def pagesC5 : List String :=
  ["Kata Pengantar\nhello", "Bab 1\nIntroduction", "1.1 Overview\nbody", "Bab 2\nNext"]

/-- A page list in which a front-matter entry precedes the first chapter
entry. -/
def pagesC4 : List String := ["Kata Pengantar\nhello", "Bab 1\nIntro"]

/-- A page list producing a single chapter entry. -/
def pagesOneBab : List String := ["Bab 1\nIntro"]

/-- Eleven pages, each a distinct casing of the front-matter marker, so
that eleven distinct front-matter headings are recorded. -/
def pagesC9 : List String :=
  ["kata pengantar", "Kata pengantar", "KAta pengantar", "KATa pengantar",
   "KATA pengantar", "kATA pengantar", "kaTA pengantar", "katA pengantar",
   "kata Pengantar", "kata PEngantar", "kata PENgantar"]

/-! ## Formalisations of claims that the code refutes, as stated -/

/-- Claim C4 as stated: every chapter entry's label number is one plus the
number of chapter-typed entries already emitted before it. -/
def chapterLabelClaim : Prop :=
  ∀ (pagesText : List String) (i : Nat) (e : TocEntry),
    (processTableOfContents pagesText).get? i = some e →
    e.type = TocType.chapter →
    e.content =
      "BAB " ++
        toString
          ((((processTableOfContents pagesText).take i).filter
              (fun x => x.type == TocType.chapter)).length + 1) ++
        " : " ++ e.title

/-- Claim C5 as stated: the expected four entries on the worked example,
with the fields the claim pins down. -/
def exampleClaim : Prop :=
  (processTableOfContents pagesC5).length = 4 ∧
  ((processTableOfContents pagesC5).get? 0).map
      (fun e => (e.type, e.title, e.pageNumber)) =
    some (TocType.frontmatter, "Kata Pengantar", PageLabel.roman "i") ∧
  ((processTableOfContents pagesC5).get? 1).map
      (fun e => (e.type, e.content, e.pageNumber)) =
    some (TocType.chapter, "BAB 1 : Introduction", PageLabel.page 1) ∧
  ((processTableOfContents pagesC5).get? 2).map
      (fun e => (e.type, e.title, e.pageNumber)) =
    some (TocType.subchapter, "1.1 Overview", PageLabel.page 1) ∧
  ((processTableOfContents pagesC5).get? 3).map
      (fun e => (e.type, e.content, e.pageNumber)) =
    some (TocType.chapter, "BAB 2 : Next", PageLabel.page 2)

/-- Claim C8 as stated, counter part: with a cover image present both
counters are incremented once before the walk (roman 2, arabic 3, the
extra arabic increment being the title page). -/
def coverSeedClaim : Prop :=
  ∀ s : EbookSettings, jsTruthyStr s.coverImage = true →
    initCounters s = { roman := 2, arabic := 3 }

/-- Every chapter-typed entry at position i of the accumulated list is
labelled with i + 1. -/
def labelInv (toc : List TocEntry) : Prop :=
  ∀ (i : Nat) (e : TocEntry), toc.get? i = some e → e.type = TocType.chapter →
    e.content = "BAB " ++ toString (i + 1) ++ " : " ++ e.title

/-- The front-matter entries of the accumulated list carry, in order, the
labels of front-matter indices 0, 1, ..., and the front-matter counter
equals their number. -/
def fmLabelsInv (st : TocState) : Prop :=
  (st.toc.filter (fun e => e.type == TocType.frontmatter)).map TocEntry.pageNumber =
    (List.range st.romanIndex).map (fun i => PageLabel.roman (romanLabel i))

/-- Emitted keys are distinct and all recorded in the seen set. -/
def kinvP (tocK : List (TocEntry × String)) (seen : List String) : Prop :=
  (tocK.map Prod.snd).Nodup ∧ ∀ k ∈ tocK.map Prod.snd, k ∈ seen

/-- The four filtered segments in canonical order. -/
def segmentsOf (l : List Chapter) : List Chapter :=
  l.filter (fun ch => ch.type == ChapterType.frontmatter) ++
  l.filter (fun ch => ch.type == ChapterType.toc) ++
  l.filter (fun ch => ch.type == ChapterType.chapter) ++
  l.filter (fun ch => ch.type == ChapterType.backmatter)

/-! ## Lemmas about renumbering -/

theorem renumberFrom_nums (n : ℤ) (l : List Chapter) :
    ((renumberFrom n l).filter (fun ch => ch.type == ChapterType.chapter)).map
        Chapter.pageNumber =
      (List.range (l.filter (fun ch => ch.type == ChapterType.chapter)).length).map
        (fun i : ℕ => some (n + (i : ℤ))) := by
  induction l generalizing n with
  | nil => simp [renumberFrom]
  | cons ch rest ih =>
    by_cases h : ch.type = ChapterType.chapter
    · simp only [renumberFrom, if_pos h, List.filter_cons, h, beq_self_eq_true, if_true,
        List.map_cons, List.length_cons, List.range_succ_eq_map, List.map_map]
      refine congrArg₂ _ (by simp) ?_
      rw [ih (n + 1)]
      refine List.map_congr_left ?_
      intro i _
      simp only [Function.comp_apply, Option.some.injEq]
      push_cast
      ring
    · have hb : (ch.type == ChapterType.chapter) = false := by simpa using h
      simp only [renumberFrom, if_neg h, List.filter_cons, hb, Bool.false_eq_true, if_false]
      exact ih n

theorem filterLen_renumberFrom (n : ℤ) (l : List Chapter) :
    ((renumberFrom n l).filter (fun ch => ch.type == ChapterType.chapter)).length =
      (l.filter (fun ch => ch.type == ChapterType.chapter)).length := by
  have h := congrArg List.length (renumberFrom_nums n l)
  rw [List.length_map, List.length_map, List.length_range] at h
  exact h

theorem isNumbered_renumberChapters (l : List Chapter) : isNumbered (renumberChapters l) := by
  unfold isNumbered renumberChapters chapterNums
  rw [renumberFrom_nums, filterLen_renumberFrom]
  refine List.map_congr_left ?_
  intro i _
  rw [add_comm]

/-- C2: immediately after each of addChapter, updateChapter and
removeChapter, the chapter-typed entries carry page numbers 1..K
contiguously in list order (each operation ends in the renumbering walk). -/
theorem c2_numbering (uuid : String) (p : PartialChapter) (l : List Chapter)
    (id1 : String) (q : PartialChapter) (id2 : String) :
    isNumbered (addChapter uuid p l) ∧ isNumbered (updateChapter id1 q l) ∧
      isNumbered (removeChapter id2 l) := by
  refine ⟨?_, ?_, ?_⟩
  · unfold addChapter
    exact isNumbered_renumberChapters _
  · unfold updateChapter
    exact isNumbered_renumberChapters _
  · unfold removeChapter
    exact isNumbered_renumberChapters _

/-- C3, counterexample: updating a nonexistent identifier does not leave
every store state unchanged, because the operation still renumbers the
chapter-typed entries. -/
theorem c3_counterexample : updateChapter "zz" {} [chA] ≠ [chA] := by decide

/-- C3, amended: with an identifier matching no stored chapter (and, for
removeSubChapter, a subchapter identifier matching no stored subchapter),
updateChapter and removeChapter return the stored list renumbered, and
removeSubChapter returns the store after a full pagination recompute; no
list entry is added, removed or merged and no error is raised. -/
theorem c3_amended (st : EbookStore) (id : String) (p : PartialChapter)
    (cid sid : String)
    (h1 : ∀ ch ∈ st.chapters, ch.id ≠ id)
    (h2 : ∀ ch ∈ st.chapters, sid ∉ ch.subChapters.map SubChapter.id) :
    updateChapter id p st.chapters = renumberChapters st.chapters ∧
      removeChapter id st.chapters = renumberChapters st.chapters ∧
      removeSubChapter cid sid st = calcStore st := by
  refine ⟨?_, ?_, ?_⟩
  · unfold updateChapter
    congr 1
    conv_rhs => rw [← List.map_id st.chapters]
    refine List.map_congr_left ?_
    intro ch hch
    have hne : (ch.id == id) = false := by simpa using h1 ch hch
    simp [hne]
  · unfold removeChapter
    congr 1
    refine List.filter_eq_self.mpr ?_
    intro ch hch
    have hne : (ch.id == id) = false := by simpa using h1 ch hch
    simp [hne]
  · have hmap : st.chapters.map (fun ch =>
        if ch.id == cid then
          { ch with subChapters := ch.subChapters.filter (fun sub => !(sub.id == sid)) }
        else ch) = st.chapters := by
      conv_rhs => rw [← List.map_id st.chapters]
      refine List.map_congr_left ?_
      intro ch hch
      by_cases hc : (ch.id == cid) = true
      · have hfilter : ch.subChapters.filter (fun sub => !(sub.id == sid)) = ch.subChapters := by
          refine List.filter_eq_self.mpr ?_
          intro sub hsub
          have hne : sub.id ≠ sid := by
            intro hEq
            exact h2 ch hch (hEq ▸ List.mem_map_of_mem SubChapter.id hsub)
          simp [hne]
        simp only [hc, if_true, hfilter]
        rfl
      · simp only [Bool.not_eq_true] at hc
        simp [hc]
    unfold removeSubChapter
    rw [hmap]

/-- C3, witness for the amended statement at a concrete store. -/
theorem c3_amended_witness :
    ((∀ ch ∈ stW.chapters, ch.id ≠ "zz") ∧
      (∀ ch ∈ stW.chapters, "zz2" ∉ ch.subChapters.map SubChapter.id)) ∧
    (updateChapter "zz" {} stW.chapters = renumberChapters stW.chapters ∧
      removeChapter "zz" stW.chapters = renumberChapters stW.chapters ∧
      removeSubChapter "c" "zz2" stW = calcStore stW) :=
  ⟨⟨by decide, by decide⟩, c3_amended stW "zz" {} "c" "zz2" (by decide) (by decide)⟩

/-- C8, counterexample: with a cover image present the roman counter is
not incremented; only the arabic counter is, so the claimed seed pair
(2, 3) is wrong. -/
theorem c8_counterexample : ¬ coverSeedClaim :=
  fun h => absurd (h exSettingsCover rfl) (by decide)

/-- C8, amended: both counters are seeded at 1; a present cover image
increments the arabic counter alone, and the title page increments the
arabic counter once more; the roman counter enters the walk at 1
regardless. -/
theorem c8_amended (s : EbookSettings) :
    initCounters s =
      { roman := 1, arabic := if jsTruthyStr s.coverImage then 3 else 2 } := by
  unfold initCounters
  by_cases h : jsTruthyStr s.coverImage <;> simp [h]

/-! ## Lemmas about the pagination walk -/

theorem calcSubs_snd_map_subCore (cpp : ℤ) (b : Bool) (cnt : Counters)
    (subs : List SubChapter) :
    ((calcSubs cpp b cnt subs).2).map subCore = subs.map subCore := by
  induction subs generalizing cnt with
  | nil => rfl
  | cons s rest ih => simp [calcSubs, subCore, ih]

theorem calcStep_chCore (cpp : ℤ) (cnt : Counters) (ch : Chapter) :
    chCore (calcStep cpp cnt ch).2 = chCore ch := by
  simp [calcStep, chCore, calcSubs_snd_map_subCore]

theorem calcList_map_chCore (cpp : ℤ) (cnt : Counters) (l : List Chapter) :
    (calcList cpp cnt l).map chCore = l.map chCore := by
  induction l generalizing cnt with
  | nil => rfl
  | cons ch rest ih => simp [calcList, calcStep_chCore, ih]

/-- C10: the pagination recompute only rewrites page-number fields; the
settings, the list length and order, and every other chapter and
subchapter field are unchanged. -/
theorem c10_frame (st : EbookStore) :
    (calcStore st).settings = st.settings ∧
      ((calcStore st).chapters).map chCore = st.chapters.map chCore := by
  refine ⟨rfl, ?_⟩
  unfold calcStore calculatePageNumbers
  exact calcList_map_chCore _ _ _

theorem calcSubs_congr (cpp : ℤ) (b : Bool) (cnt : Counters)
    (l1 l2 : List SubChapter) (h : l1.map subCore = l2.map subCore) :
    calcSubs cpp b cnt l1 = calcSubs cpp b cnt l2 := by
  induction l1 generalizing cnt l2 with
  | nil => cases l2 with
    | nil => rfl
    | cons s2 rest2 => simp at h
  | cons s rest ih =>
    cases l2 with
    | nil => simp at h
    | cons s2 rest2 =>
      simp only [List.map_cons, List.cons.injEq] at h
      obtain ⟨h1, h2⟩ := h
      cases s with | mk i t c pn =>
      cases s2 with | mk i2 t2 c2 pn2 =>
      simp only [subCore, SubCore.mk.injEq] at h1
      obtain ⟨hi, ht, hc⟩ := h1
      subst hi; subst ht; subst hc
      simp [calcSubs, ih _ _ h2]

theorem calcStep_congr (cpp : ℤ) (cnt : Counters) (a b : Chapter)
    (h : chCore a = chCore b) : calcStep cpp cnt a = calcStep cpp cnt b := by
  cases a with | mk i t c im ty ind ls pn sc =>
  cases b with | mk i2 t2 c2 im2 ty2 ind2 ls2 pn2 sc2 =>
  simp only [chCore, ChapterCore.mk.injEq] at h
  obtain ⟨h1, h2, h3, h4, h5, h6, h7, h8⟩ := h
  subst h1; subst h2; subst h3; subst h4; subst h5; subst h6; subst h7
  have hsubs : ∀ (pre : Bool) (cnt2 : Counters),
      calcSubs cpp pre cnt2 sc = calcSubs cpp pre cnt2 sc2 :=
    fun pre cnt2 => calcSubs_congr cpp pre cnt2 sc sc2 h8
  simp only [calcStep, isPreType]
  rw [hsubs]

theorem calcList_congr (cpp : ℤ) (cnt : Counters) (l1 l2 : List Chapter)
    (h : l1.map chCore = l2.map chCore) :
    calcList cpp cnt l1 = calcList cpp cnt l2 := by
  induction l1 generalizing cnt l2 with
  | nil => cases l2 with
    | nil => rfl
    | cons b rest2 => simp at h
  | cons a rest ih =>
    cases l2 with
    | nil => simp at h
    | cons b rest2 =>
      simp only [List.map_cons, List.cons.injEq] at h
      obtain ⟨h1, h2⟩ := h
      have hstep := calcStep_congr cpp cnt a b h1
      simp [calcList, hstep, ih _ _ h2]

/-- C6: with no intervening mutation, the pagination recompute is
idempotent: recomputing over an already recomputed list yields the same
list (in particular every page number agrees). -/
theorem c6_idempotent (s : EbookSettings) (l : List Chapter) :
    calculatePageNumbers s (calculatePageNumbers s l) = calculatePageNumbers s l := by
  unfold calculatePageNumbers
  exact calcList_congr _ _ _ _ (calcList_map_chCore _ _ _)

/-! ## Lemmas for the reorder operation -/

theorem calcList_append (cpp : ℤ) (cnt : Counters) (l1 l2 : List Chapter) :
    calcList cpp cnt (l1 ++ l2) =
      calcList cpp cnt l1 ++ calcList cpp (calcCnt cpp cnt l1) l2 := by
  induction l1 generalizing cnt with
  | nil => rfl
  | cons ch rest ih => simp [calcList, calcCnt, ih]

theorem map_type_of_map_chCore {l1 l2 : List Chapter}
    (h : l1.map chCore = l2.map chCore) :
    l1.map Chapter.type = l2.map Chapter.type := by
  have e : ∀ m : List Chapter, m.map Chapter.type = (m.map chCore).map ChapterCore.type := by
    intro m
    rw [List.map_map]
    rfl
  rw [e, e, h]

theorem numberFrom_map_chCore (n : ℤ) (l : List Chapter) :
    (numberFrom n l).map chCore = l.map chCore := by
  induction l generalizing n with
  | nil => rfl
  | cons ch rest ih => simp [numberFrom, chCore, ih]

theorem mem_type_eq {l1 l2 : List Chapter}
    (h : l1.map Chapter.type = l2.map Chapter.type) {ty : ChapterType}
    (hall : ∀ ch ∈ l2, ch.type = ty) : ∀ ch ∈ l1, ch.type = ty := by
  intro ch hch
  have hm : ch.type ∈ l1.map Chapter.type := List.mem_map_of_mem Chapter.type hch
  rw [h] at hm
  obtain ⟨ch2, hch2, he⟩ := List.mem_map.mp hm
  rw [← he]
  exact hall ch2 hch2

theorem type_of_mem_filter {input : List Chapter} {ty : ChapterType} :
    ∀ ch ∈ input.filter (fun c => c.type == ty), ch.type = ty := by
  intro ch hch
  have := (List.mem_filter.mp hch).2
  simpa using this

theorem filter_of_all_type {l : List Chapter} {ty : ChapterType}
    (h : ∀ ch ∈ l, ch.type = ty) : l.filter (fun ch => ch.type == ty) = l := by
  refine List.filter_eq_self.mpr ?_
  intro ch hch
  simp [h ch hch]

theorem filter_of_no_type (ty : ChapterType) {l : List Chapter} {ty2 : ChapterType}
    (h : ∀ ch ∈ l, ch.type = ty2) (hne : ty2 ≠ ty) :
    l.filter (fun ch => ch.type == ty) = [] := by
  refine List.filter_eq_nil_iff.mpr ?_
  intro ch hch
  simp [h ch hch, hne]

theorem segmentsOf_of_blocks {A1 A2 A3 A4 : List Chapter}
    (h1 : ∀ ch ∈ A1, ch.type = ChapterType.frontmatter)
    (h2 : ∀ ch ∈ A2, ch.type = ChapterType.toc)
    (h3 : ∀ ch ∈ A3, ch.type = ChapterType.chapter)
    (h4 : ∀ ch ∈ A4, ch.type = ChapterType.backmatter) :
    segmentsOf (A1 ++ A2 ++ A3 ++ A4) = A1 ++ A2 ++ A3 ++ A4 ∧
    (A1 ++ A2 ++ A3 ++ A4).filter (fun ch => ch.type == ChapterType.frontmatter) = A1 ∧
    (A1 ++ A2 ++ A3 ++ A4).filter (fun ch => ch.type == ChapterType.toc) = A2 ∧
    (A1 ++ A2 ++ A3 ++ A4).filter (fun ch => ch.type == ChapterType.chapter) = A3 ∧
    (A1 ++ A2 ++ A3 ++ A4).filter (fun ch => ch.type == ChapterType.backmatter) = A4 := by
  have f1 : (A1 ++ A2 ++ A3 ++ A4).filter (fun ch => ch.type == ChapterType.frontmatter) = A1 := by
    simp [List.filter_append, filter_of_all_type h1,
      filter_of_no_type ChapterType.frontmatter h2 (by decide),
      filter_of_no_type ChapterType.frontmatter h3 (by decide),
      filter_of_no_type ChapterType.frontmatter h4 (by decide)]
  have f2 : (A1 ++ A2 ++ A3 ++ A4).filter (fun ch => ch.type == ChapterType.toc) = A2 := by
    simp [List.filter_append, filter_of_all_type h2,
      filter_of_no_type ChapterType.toc h1 (by decide),
      filter_of_no_type ChapterType.toc h3 (by decide),
      filter_of_no_type ChapterType.toc h4 (by decide)]
  have f3 : (A1 ++ A2 ++ A3 ++ A4).filter (fun ch => ch.type == ChapterType.chapter) = A3 := by
    simp [List.filter_append, filter_of_all_type h3,
      filter_of_no_type ChapterType.chapter h1 (by decide),
      filter_of_no_type ChapterType.chapter h2 (by decide),
      filter_of_no_type ChapterType.chapter h4 (by decide)]
  have f4 : (A1 ++ A2 ++ A3 ++ A4).filter (fun ch => ch.type == ChapterType.backmatter) = A4 := by
    simp [List.filter_append, filter_of_all_type h4,
      filter_of_no_type ChapterType.backmatter h1 (by decide),
      filter_of_no_type ChapterType.backmatter h2 (by decide),
      filter_of_no_type ChapterType.backmatter h3 (by decide)]
  refine ⟨?_, f1, f2, f3, f4⟩
  unfold segmentsOf
  rw [f1, f2, f3, f4]

theorem reorder_blocks (cpp : ℤ) (c0 : Counters) (F T C B : List Chapter)
    (hF : ∀ ch ∈ F, ch.type = ChapterType.frontmatter)
    (hT : ∀ ch ∈ T, ch.type = ChapterType.toc)
    (hC : ∀ ch ∈ C, ch.type = ChapterType.chapter)
    (hB : ∀ ch ∈ B, ch.type = ChapterType.backmatter) :
    segmentsOf (calcList cpp c0 (F ++ T ++ numberFrom 1 C ++ B)) =
      calcList cpp c0 (F ++ T ++ numberFrom 1 C ++ B) ∧
    ((calcList cpp c0 (F ++ T ++ numberFrom 1 C ++ B)).filter
        (fun ch => ch.type == ChapterType.frontmatter)).map chCore = F.map chCore ∧
    ((calcList cpp c0 (F ++ T ++ numberFrom 1 C ++ B)).filter
        (fun ch => ch.type == ChapterType.toc)).map chCore = T.map chCore ∧
    ((calcList cpp c0 (F ++ T ++ numberFrom 1 C ++ B)).filter
        (fun ch => ch.type == ChapterType.chapter)).map chCore = C.map chCore ∧
    ((calcList cpp c0 (F ++ T ++ numberFrom 1 C ++ B)).filter
        (fun ch => ch.type == ChapterType.backmatter)).map chCore = B.map chCore := by
  rw [calcList_append, calcList_append, calcList_append]
  have hm1 : ∀ ch ∈ calcList cpp c0 F, ch.type = ChapterType.frontmatter :=
    mem_type_eq (map_type_of_map_chCore (calcList_map_chCore cpp c0 F)) hF
  have hm2 : ∀ ch ∈ calcList cpp (calcCnt cpp c0 F) T, ch.type = ChapterType.toc :=
    mem_type_eq (map_type_of_map_chCore (calcList_map_chCore _ _ _)) hT
  have hm3 : ∀ ch ∈ calcList cpp (calcCnt cpp c0 (F ++ T)) (numberFrom 1 C),
      ch.type = ChapterType.chapter :=
    mem_type_eq ((map_type_of_map_chCore (calcList_map_chCore _ _ _)).trans
      (map_type_of_map_chCore (numberFrom_map_chCore _ _))) hC
  have hm4 : ∀ ch ∈ calcList cpp (calcCnt cpp c0 (F ++ T ++ numberFrom 1 C)) B,
      ch.type = ChapterType.backmatter :=
    mem_type_eq (map_type_of_map_chCore (calcList_map_chCore _ _ _)) hB
  obtain ⟨hs, f1, f2, f3, f4⟩ := segmentsOf_of_blocks hm1 hm2 hm3 hm4
  refine ⟨hs, ?_, ?_, ?_, ?_⟩
  · rw [f1]
    exact calcList_map_chCore _ _ _
  · rw [f2]
    exact calcList_map_chCore _ _ _
  · rw [f3]
    exact (calcList_map_chCore _ _ _).trans (numberFrom_map_chCore _ _)
  · rw [f4]
    exact calcList_map_chCore _ _ _

/-- C1: after reorderChapters (including its trailing pagination
recompute) the stored list is exactly its four type segments in canonical
order, and within each type the entries appear in the caller's relative
order, unchanged except for the rewritten page numbers. -/
theorem c1_reorder_segments (st : EbookStore) (input : List Chapter) :
    segmentsOf ((reorderChapters input st).chapters) = (reorderChapters input st).chapters ∧
    ∀ ty : ChapterType,
      (((reorderChapters input st).chapters).filter (fun ch => ch.type == ty)).map chCore =
        (input.filter (fun ch => ch.type == ty)).map chCore := by
  have hout : (reorderChapters input st).chapters =
      calcList (charsPerPage st.settings) (initCounters st.settings)
        (input.filter (fun ch => ch.type == ChapterType.frontmatter) ++
          input.filter (fun ch => ch.type == ChapterType.toc) ++
          numberFrom 1 (input.filter (fun ch => ch.type == ChapterType.chapter)) ++
          input.filter (fun ch => ch.type == ChapterType.backmatter)) := rfl
  obtain ⟨hs, h1, h2, h3, h4⟩ :=
    reorder_blocks (charsPerPage st.settings) (initCounters st.settings)
      (input.filter (fun ch => ch.type == ChapterType.frontmatter))
      (input.filter (fun ch => ch.type == ChapterType.toc))
      (input.filter (fun ch => ch.type == ChapterType.chapter))
      (input.filter (fun ch => ch.type == ChapterType.backmatter))
      type_of_mem_filter type_of_mem_filter type_of_mem_filter type_of_mem_filter
  refine ⟨?_, ?_⟩
  · rw [hout]
    exact hs
  · intro ty
    cases ty
    · rw [hout]
      exact h1
    · rw [hout]
      exact h2
    · rw [hout]
      exact h3
    · rw [hout]
      exact h4

/-! ## Generic fold lemmas -/

theorem foldl_preserve {α σ : Type} (P : σ → Prop) {f : σ → α → σ}
    (h : ∀ s a, P s → P (f s a)) :
    ∀ (l : List α) (s : σ), P s → P (l.foldl f s) := by
  intro l
  induction l with
  | nil => intro s hs; exact hs
  | cons a t ih =>
    intro s hs
    rw [List.foldl_cons]
    exact ih (f s a) (h s a hs)

theorem foldl_commute {α σ τ : Type} (g : σ → τ) (f : σ → α → σ) (f2 : τ → α → τ)
    (h : ∀ s a, g (f s a) = f2 (g s) a) :
    ∀ (l : List α) (s : σ), g (l.foldl f s) = l.foldl f2 (g s) := by
  intro l
  induction l with
  | nil => intro s; rfl
  | cons a t ih =>
    intro s
    rw [List.foldl_cons, List.foldl_cons, ih, h]

/-! ## The chapter-label invariant (claim C4) -/

theorem labelInv_append {toc : List TocEntry} {e : TocEntry} (h : labelInv toc)
    (he : e.type = TocType.chapter →
      e.content = "BAB " ++ toString (toc.length + 1) ++ " : " ++ e.title) :
    labelInv (toc ++ [e]) := by
  intro i x hget hty
  rcases Nat.lt_trichotomy i toc.length with hlt | heq | hgt
  · rw [List.get?_append hlt] at hget
    exact h i x hget hty
  · subst heq
    rw [List.get?_concat_length] at hget
    injection hget with hx
    subst hx
    exact he hty
  · have hnone : (toc ++ [e]).get? i = none := by
      rw [List.get?_eq_none]
      simp only [List.length_append, List.length_singleton]
      omega
    rw [hnone] at hget
    cases hget

theorem labelInv_specialStep {st : TocState} (line : List Char)
    (h : labelInv st.toc) : labelInv (specialStep st line).toc := by
  cases hm : specialFirstMatch line with
  | none => simpa [specialStep, hm] using h
  | some m =>
    simp only [specialStep, hm]
    split
    · exact h
    · exact labelInv_append h (fun hty => nomatch hty)

theorem labelInv_babStep {st : TocState} (lines : List (List Char)) (line : List Char)
    (h : labelInv st.toc) : labelInv (babStep lines st line).toc := by
  cases hm : babFirstMatch line with
  | none => simpa [babStep, hm] using h
  | some m =>
    simp only [babStep, hm]
    split
    · exact h
    · split
      · exact labelInv_append h (fun _ => rfl)
      · exact h

theorem labelInv_subbabStep {st : TocState} (line : List Char)
    (h : labelInv st.toc) : labelInv (subbabStep st line).toc := by
  cases hm : subbabFirstMatch line with
  | none => simpa [subbabStep, hm] using h
  | some m =>
    simp only [subbabStep, hm]
    split
    · exact labelInv_append h (fun hty => nomatch hty)
    · exact h

theorem labelInv_processLine {st : TocState} (lines : List (List Char)) (line : List Char)
    (h : labelInv st.toc) : labelInv (processLine lines st line).toc :=
  labelInv_subbabStep line (labelInv_babStep lines line (labelInv_specialStep line h))

theorem labelInv_flagStep {st : TocState} (text : String)
    (h : labelInv st.toc) : labelInv (flagStep st text).toc := by
  unfold flagStep
  split
  · exact h
  · exact h

theorem labelInv_bumpStep {st : TocState}
    (h : labelInv st.toc) : labelInv (bumpStep st).toc := by
  unfold bumpStep
  split
  · exact h
  · exact h

theorem labelInv_processPage {st : TocState} (text : String)
    (h : labelInv st.toc) : labelInv (processPage st text).toc := by
  unfold processPage
  exact labelInv_bumpStep
    (foldl_preserve (fun s : TocState => labelInv s.toc) (fun s a hs => labelInv_processLine _ a hs) _ _
      (labelInv_flagStep text h))

/-- C4, amended: each chapter entry is labelled "BAB n : title" where n is
one plus the number of entries of any type already emitted, that is, one
plus the entry's position in the output list. -/
theorem c4_amended (pagesText : List String) (i : Nat) (e : TocEntry)
    (hget : (processTableOfContents pagesText).get? i = some e)
    (hty : e.type = TocType.chapter) :
    e.content = "BAB " ++ toString (i + 1) ++ " : " ++ e.title := by
  have hinit : labelInv tocInit.toc := by
    intro j x hj
    simp [tocInit] at hj
  have hinv : labelInv ((pagesText.foldl processPage tocInit).toc) :=
    foldl_preserve (fun s : TocState => labelInv s.toc) (fun s a hs => labelInv_processPage a hs)
      pagesText tocInit hinit
  exact hinv i e hget hty

/-- C4, counterexample: on a run where a front-matter entry precedes the
first chapter entry, the chapter entry is labelled from the total number
of emitted entries, not from the number of emitted chapter entries. -/
theorem c4_counterexample : ¬ chapterLabelClaim := by
  intro h
  have := h pagesC4 1 ⟨TocType.chapter, "Intro", "BAB 2 : Intro", PageLabel.page 1⟩
    (by decide) rfl
  exact absurd this (by decide)

/-- C4, witness for the amended statement at a concrete input. -/
theorem c4_amended_witness :
    (processTableOfContents pagesOneBab).get? 0 =
        some ⟨TocType.chapter, "Intro", "BAB 1 : Intro", PageLabel.page 1⟩ ∧
      ("BAB 1 : Intro" : String) = "BAB " ++ toString (0 + 1) ++ " : " ++ "Intro" :=
  ⟨by decide,
    c4_amended pagesOneBab 0 ⟨TocType.chapter, "Intro", "BAB 1 : Intro", PageLabel.page 1⟩
      (by decide) rfl⟩

/-! ## The front-matter label invariant (claim C9) -/

theorem fm_specialStep {st : TocState} (line : List Char)
    (h : fmLabelsInv st) : fmLabelsInv (specialStep st line) := by
  cases hm : specialFirstMatch line with
  | none => simpa [specialStep, hm] using h
  | some m =>
    simp only [specialStep, hm]
    split
    · exact h
    · unfold fmLabelsInv at h ⊢
      simp only [List.filter_append, List.map_append, List.range_succ, List.filter_cons,
        List.filter_nil, beq_self_eq_true, if_true, List.map_cons, List.map_nil]
      rw [h]
      simp [romanLabel]

theorem fm_babStep {st : TocState} (lines : List (List Char)) (line : List Char)
    (h : fmLabelsInv st) : fmLabelsInv (babStep lines st line) := by
  cases hm : babFirstMatch line with
  | none => simpa [babStep, hm] using h
  | some m =>
    simp only [babStep, hm]
    split
    · exact h
    · split
      · unfold fmLabelsInv at h ⊢
        simpa [List.filter_append] using h
      · exact h

theorem fm_subbabStep {st : TocState} (line : List Char)
    (h : fmLabelsInv st) : fmLabelsInv (subbabStep st line) := by
  cases hm : subbabFirstMatch line with
  | none => simpa [subbabStep, hm] using h
  | some m =>
    simp only [subbabStep, hm]
    split
    · unfold fmLabelsInv at h ⊢
      simpa [List.filter_append] using h
    · exact h

theorem fm_processLine {st : TocState} (lines : List (List Char)) (line : List Char)
    (h : fmLabelsInv st) : fmLabelsInv (processLine lines st line) :=
  fm_subbabStep line (fm_babStep lines line (fm_specialStep line h))

theorem fm_flagStep {st : TocState} (text : String)
    (h : fmLabelsInv st) : fmLabelsInv (flagStep st text) := by
  unfold flagStep
  split
  · exact h
  · exact h

theorem fm_bumpStep {st : TocState} (h : fmLabelsInv st) : fmLabelsInv (bumpStep st) := by
  unfold bumpStep
  split
  · exact h
  · exact h

theorem fm_processPage {st : TocState} (text : String)
    (h : fmLabelsInv st) : fmLabelsInv (processPage st text) := by
  unfold processPage
  exact fm_bumpStep
    (foldl_preserve fmLabelsInv (fun s a hs => fm_processLine _ a hs) _ _
      (fm_flagStep text h))

/-- C9: whenever an eleventh distinct front-matter heading is recorded,
its page label is the decimal string "11", the roman table having only ten
entries. -/
theorem c9_roman_exhaustion (pagesText : List String) (e : TocEntry)
    (hget : ((processTableOfContents pagesText).filter
        (fun x => x.type == TocType.frontmatter)).get? 10 = some e) :
    e.pageNumber = PageLabel.roman "11" := by
  have hinv : fmLabelsInv (pagesText.foldl processPage tocInit) :=
    foldl_preserve fmLabelsInv (fun s a hs => fm_processPage a hs) pagesText tocInit rfl
  unfold fmLabelsInv at hinv
  unfold processTableOfContents at hget
  have hlen : 10 < (((pagesText.foldl processPage tocInit).toc).filter
      (fun x => x.type == TocType.frontmatter)).length := by
    by_contra hle
    push_neg at hle
    rw [List.get?_eq_none.mpr hle] at hget
    cases hget
  have hlenEq := congrArg List.length hinv
  rw [List.length_map, List.length_map, List.length_range] at hlenEq
  have hri : 10 < (pagesText.foldl processPage tocInit).romanIndex := by omega
  have h10 := congrArg (fun l => l.get? 10) hinv
  simp only [List.get?_map] at h10
  rw [hget, List.get?_range hri] at h10
  simp only [Option.map_some'] at h10
  exact Option.some.inj h10

set_option maxRecDepth 100000 in
/-- C9, witness at a run with eleven distinct front-matter headings. -/
theorem c9_witness :
    ((processTableOfContents pagesC9).filter
        (fun x => x.type == TocType.frontmatter)).get? 10 =
      some ⟨TocType.frontmatter, "kata PENgantar", "kata PENgantar - Halaman 11",
        PageLabel.roman "11"⟩ ∧
    (⟨TocType.frontmatter, "kata PENgantar", "kata PENgantar - Halaman 11",
        PageLabel.roman "11"⟩ : TocEntry).pageNumber = PageLabel.roman "11" :=
  ⟨by decide, c9_roman_exhaustion pagesC9 _ (by decide)⟩

/-! ## The worked example (claim C5) -/

set_option maxRecDepth 100000 in
/-- C5, amended: the actual extractor output on the spec's worked example.
The entry types, titles, order and count match the claim, but the chapter
labels count all emitted entries ("BAB 2", "BAB 4") and the page counter
has already advanced past the page that set the flag, so the subchapter
lands on page 2 and the second chapter on page 3. -/
theorem c5_amended :
    processTableOfContents pagesC5 =
      [⟨TocType.frontmatter, "Kata Pengantar", "Kata Pengantar - Halaman i",
         PageLabel.roman "i"⟩,
       ⟨TocType.chapter, "Introduction", "BAB 2 : Introduction", PageLabel.page 1⟩,
       ⟨TocType.subchapter, "1.1 Overview", "1.1 Overview - Halaman 2", PageLabel.page 2⟩,
       ⟨TocType.chapter, "Next", "BAB 4 : Next", PageLabel.page 3⟩] := by
  decide

set_option maxRecDepth 100000 in
/-- C5, counterexample: the expected output stated by the claim does not
match the code on the worked example. -/
theorem c5_counterexample : ¬ exampleClaim := by
  unfold exampleClaim
  decide

/-! ## Erasure of the instrumentation (claim C7) -/

theorem eraseK_specialStep (st : KTocState) (line : List Char) :
    eraseK (specialStepK st line) = specialStep (eraseK st) line := by
  cases hm : specialFirstMatch line with
  | none => simp [specialStepK, specialStep, hm]
  | some m =>
    simp only [specialStepK, specialStep, hm, eraseK]
    split
    · rfl
    · simp [List.map_append]

theorem eraseK_babStep (lines : List (List Char)) (st : KTocState) (line : List Char) :
    eraseK (babStepK lines st line) = babStep lines (eraseK st) line := by
  cases hm : babFirstMatch line with
  | none => simp [babStepK, babStep, hm]
  | some m =>
    simp only [babStepK, babStep, hm, eraseK]
    split
    · rfl
    · split
      · simp [List.map_append, List.length_map]
      · rfl

theorem eraseK_subbabStep (st : KTocState) (line : List Char) :
    eraseK (subbabStepK st line) = subbabStep (eraseK st) line := by
  cases hm : subbabFirstMatch line with
  | none => simp [subbabStepK, subbabStep, hm]
  | some m =>
    simp only [subbabStepK, subbabStep, hm, eraseK]
    split
    · simp [List.map_append]
    · rfl

theorem eraseK_processLine (lines : List (List Char)) (st : KTocState) (line : List Char) :
    eraseK (processLineK lines st line) = processLine lines (eraseK st) line := by
  unfold processLineK processLine
  rw [eraseK_subbabStep, eraseK_babStep, eraseK_specialStep]

theorem eraseK_flagStep (st : KTocState) (text : String) :
    eraseK (flagStepK st text) = flagStep (eraseK st) text := by
  simp only [flagStepK, flagStep, eraseK]
  split
  · rfl
  · rfl

theorem eraseK_bumpStep (st : KTocState) :
    eraseK (bumpStepK st) = bumpStep (eraseK st) := by
  simp only [bumpStepK, bumpStep, eraseK]
  split
  · rfl
  · rfl

theorem eraseK_processPage (st : KTocState) (text : String) :
    eraseK (processPageK st text) = processPage (eraseK st) text := by
  unfold processPageK processPage
  rw [eraseK_bumpStep,
    foldl_commute eraseK (processLineK (splitLines text.data))
      (processLine (splitLines text.data)) (fun s a => eraseK_processLine _ s a),
    eraseK_flagStep]

theorem ktoc_proj (pagesText : List String) :
    (processTableOfContentsK pagesText).map Prod.fst = processTableOfContents pagesText := by
  unfold processTableOfContentsK processTableOfContents
  have h := foldl_commute eraseK processPageK processPage
    (fun s a => eraseK_processPage s a) pagesText tocInitK
  have h2 : eraseK tocInitK = tocInit := rfl
  rw [h2] at h
  calc (pagesText.foldl processPageK tocInitK).tocK.map Prod.fst
      = (eraseK (pagesText.foldl processPageK tocInitK)).toc := rfl
    _ = (pagesText.foldl processPage tocInit).toc := by rw [h]

/-! ## The deduplication invariant (claim C7) -/

theorem not_mem_of_contains_false {l : List String} {s : String}
    (h : l.contains s = false) : s ∉ l := by
  intro hmem
  have hc : l.contains s = true := by simpa using hmem
  rw [h] at hc
  cases hc

theorem kinvP_push {tocK : List (TocEntry × String)} {seen : List String}
    (hinv : kinvP tocK seen) (e : TocEntry) (k : String) (hk : k ∉ seen) :
    kinvP (tocK ++ [(e, k)]) (k :: seen) := by
  obtain ⟨hnd, hsub⟩ := hinv
  have hknot : k ∉ tocK.map Prod.snd := fun hmem => hk (hsub k hmem)
  constructor
  · rw [List.map_append]
    refine List.Nodup.append hnd (by simp) ?_
    intro x hx hx2
    simp only [List.map_cons, List.map_nil, List.mem_singleton] at hx2
    subst hx2
    exact hknot hx
  · intro k2 hk2
    rw [List.map_append] at hk2
    rcases List.mem_append.mp hk2 with h1 | h1
    · exact List.mem_cons_of_mem _ (hsub k2 h1)
    · simp only [List.map_cons, List.map_nil, List.mem_singleton] at h1
      subst h1
      exact List.mem_cons_self _ _

theorem kinv_specialStepK (st : KTocState) (line : List Char)
    (h : kinvP st.tocK st.seen) :
    kinvP (specialStepK st line).tocK (specialStepK st line).seen := by
  cases hm : specialFirstMatch line with
  | none => simpa [specialStepK, hm] using h
  | some m =>
    simp only [specialStepK, hm]
    split
    · exact h
    · next hc =>
      rw [Bool.not_eq_true] at hc
      exact kinvP_push h _ _ (not_mem_of_contains_false hc)

theorem kinv_babStepK (lines : List (List Char)) (st : KTocState) (line : List Char)
    (h : kinvP st.tocK st.seen) :
    kinvP (babStepK lines st line).tocK (babStepK lines st line).seen := by
  cases hm : babFirstMatch line with
  | none => simpa [babStepK, hm] using h
  | some m =>
    simp only [babStepK, hm]
    split
    · exact h
    · next hc =>
      rw [Bool.not_eq_true] at hc
      split
      · exact kinvP_push h _ _ (not_mem_of_contains_false hc)
      · exact h

theorem kinv_subbabStepK (st : KTocState) (line : List Char)
    (h : kinvP st.tocK st.seen) :
    kinvP (subbabStepK st line).tocK (subbabStepK st line).seen := by
  cases hm : subbabFirstMatch line with
  | none => simpa [subbabStepK, hm] using h
  | some m =>
    simp only [subbabStepK, hm]
    split
    · next hc =>
      rw [Bool.and_eq_true, Bool.not_eq_true'] at hc
      exact kinvP_push h _ _ (not_mem_of_contains_false hc.1)
    · exact h

theorem kinv_processLineK (lines : List (List Char)) (st : KTocState) (line : List Char)
    (h : kinvP st.tocK st.seen) :
    kinvP (processLineK lines st line).tocK (processLineK lines st line).seen :=
  kinv_subbabStepK _ line (kinv_babStepK lines _ line (kinv_specialStepK st line h))

theorem kinv_flagStepK (st : KTocState) (text : String)
    (h : kinvP st.tocK st.seen) :
    kinvP (flagStepK st text).tocK (flagStepK st text).seen := by
  unfold flagStepK
  split
  · exact h
  · exact h

theorem kinv_bumpStepK (st : KTocState)
    (h : kinvP st.tocK st.seen) : kinvP (bumpStepK st).tocK (bumpStepK st).seen := by
  unfold bumpStepK
  split
  · exact h
  · exact h

theorem kinv_processPageK (st : KTocState) (text : String)
    (h : kinvP st.tocK st.seen) :
    kinvP (processPageK st text).tocK (processPageK st text).seen := by
  unfold processPageK
  exact kinv_bumpStepK _
    (foldl_preserve (fun s : KTocState => kinvP s.tocK s.seen)
      (fun s a hs => kinv_processLineK _ s a hs) _ _ (kinv_flagStepK st text h))

/-- C7: within one run no deduplication key (the matched heading text a
pushed entry was recorded under) occurs twice, and forgetting the keys
recovers exactly the extractor output, so no heading text yields two
entries. -/
theorem c7_dedup (pagesText : List String) :
    ((processTableOfContentsK pagesText).map Prod.snd).Nodup ∧
      (processTableOfContentsK pagesText).map Prod.fst = processTableOfContents pagesText := by
  constructor
  · have hinv := foldl_preserve (fun s : KTocState => kinvP s.tocK s.seen)
      (fun s a hs => kinv_processPageK s a hs) pagesText tocInitK
      ⟨List.nodup_nil, by simp [tocInitK]⟩
    exact hinv.1
  · exact ktoc_proj pagesText
